import Mathlib

/-!
Shallow embedding of the `timesvirginian` web backend (`app.py`) and proofs
about the claims of its specification.  Python strings are modelled as lists
of characters, Python ints as `Int`/`Nat`, dictionaries as association lists,
and the fallible external collaborators (object storage, float parsing) as
`Option`-valued parameters.  Each endpoint's request handling is translated
into a pure Lean function over these models.
-/

namespace TimesVirginian

/-- Python strings, modelled as lists of characters. -/
abbrev Str := List Char

/-- Python's substring test `pat in s` on strings (`str.__contains__`). -/
def isSubstrOf (pat : Str) : Str → Bool
  | [] => pat.isEmpty
  | c :: t => pat.isPrefixOf (c :: t) || isSubstrOf pat t

/-- Python's `str.lower()` (restricted to the ASCII mapping of `Char.toLower`). -/
def lowerStr (s : Str) : Str := s.map Char.toLower

/-- Python's `str.split(sep)` for a one-character separator `c`:
keeps empty pieces, and splitting the empty string gives one empty piece. -/
def splitChar (c : Char) : Str → List Str
  | [] => [[]]
  | a :: t =>
    if a = c then [] :: splitChar c t
    else
      match splitChar c t with
      | [] => [[a]]
      | h :: r => (a :: h) :: r

/-- Python's `sep.join(pieces)` on strings. -/
def pyJoin (sep : Str) : List Str → Str
  | [] => []
  | [x] => x
  | x :: y :: r => x ++ sep ++ pyJoin sep (y :: r)

/-- Python's list slice `l[s:e]` for `0 ≤ s ≤ e` (the only shape the
application uses: `s = (page-1)*per_page`, `e = s + per_page`). -/
def pySlice (l : List α) (s e : Nat) : List α := (l.drop s).take (e - s)

/-- Python's sequence indexing `l[i]` including negative-index semantics:
`l[-k]` is `l[len l - k]` for `1 ≤ k ≤ len l`; out of range gives `none`
(Python raises `IndexError`). -/
def pyIndex (l : List α) (i : Int) : Option α :=
  if 0 ≤ i then l.get? i.toNat
  else if -i ≤ (l.length : Int) then l.get? (l.length - (-i).toNat)
  else none

/-- Fuel-driven core of `pyReplace`; the fuel is the length of the scanned
string, which suffices because every step consumes at least one character
(the application only calls it with a nonempty pattern). -/
def pyReplaceF (pat rep : Str) : Nat → Str → Str
  | 0, s => s
  | _ + 1, [] => []
  | fuel + 1, c :: t =>
    if pat.isPrefixOf (c :: t) then rep ++ pyReplaceF pat rep fuel ((c :: t).drop pat.length)
    else c :: pyReplaceF pat rep fuel t

/-- Python's `s.replace(pat, rep)` for a nonempty pattern: every leftmost
non-overlapping occurrence of `pat` in `s` is replaced by `rep`. -/
def pyReplace (pat rep s : Str) : Str := pyReplaceF pat rep s.length s

/-- Fuel-driven core of `pySplitOn` (Python's `s.split(pat)` for nonempty
`pat`), structured exactly like `pyReplaceF`. -/
def pySplitF (pat : Str) : Nat → Str → List Str
  | 0, s => [s]
  | _ + 1, [] => [[]]
  | fuel + 1, c :: t =>
    if pat.isPrefixOf (c :: t) then [] :: pySplitF pat fuel ((c :: t).drop pat.length)
    else
      match pySplitF pat fuel t with
      | [] => [[c]]
      | h :: r => (c :: h) :: r

/-- Python's `s.split(pat)` for a nonempty pattern. -/
def pySplitOn (pat s : Str) : List Str := pySplitF pat s.length s

/-- Python's `s.strip(chars)`: remove the characters of `cs` from both ends. -/
def pyStripChars (cs : Str) (s : Str) : Str :=
  ((s.dropWhile (fun c => cs.contains c)).reverse.dropWhile (fun c => cs.contains c)).reverse

/-- One record of the JSON-lines corpus: the search code only ever reads its
`text` field (`doc['text']`), so the model keeps exactly that field. -/
structure Doc where
  text : Str
  deriving DecidableEq

def markTagL : Str := "<mark>".data

def markTagR : Str := "</mark>".data

/-- The highlight marker the endpoint builds: `f'<mark>{query}</mark>'`. -/
def markWrap (q : Str) : Str := markTagL ++ q ++ markTagR

/-- One element of the `hits` array built by `search_jsonl_endpoint`
(`app.py` lines 122-129); the single `highlights` entry is flattened into
the `snippet` and `matchedTokens` fields. -/
structure Hit where
  document : Doc
  snippet : Str
  matchedTokens : List Str
  deriving DecidableEq

/-- The response body `{'hits': ..., 'found': ...}` of `search_jsonl_endpoint`. -/
structure SearchResp where
  hits : List Hit
  found : Nat
  deriving DecidableEq

/-- The match test of `search_jsonl_endpoint` (`app.py` line 106):
`query.lower() in doc['text'].lower()`. -/
def docMatches (q : Str) (d : Doc) : Bool := isSubstrOf (lowerStr q) (lowerStr d.text)

/-- The hit record built for one matching document (`app.py` lines 122-128);
the snippet is `doc['text'].replace(query, f'<mark>{query}</mark>')`. -/
def mkHit (q : Str) (d : Doc) : Hit :=
  { document := d, snippet := pyReplace q (markWrap q) d.text, matchedTokens := [q] }

/-- First pass of `search_jsonl_endpoint` (`app.py` lines 102-107): the line
numbers, counted from `i`, of the documents matching the query. -/
def matchIndices (q : Str) : Nat → List Doc → List Nat
  | _, [] => []
  | i, d :: t => (if docMatches q d then [i] else []) ++ matchIndices q (i + 1) t

/-- Second pass of `search_jsonl_endpoint` (`app.py` lines 117-131): walk the
file again and materialize the documents whose line number lies in `S`.
(The source's early `break` once `i` exceeds `max(page_indices)` is a pure
optimization: lines after that point are not in `S`, so the collected list
is the same.) -/
def collectHits (q : Str) (S : List Nat) : Nat → List Doc → List Hit
  | _, [] => []
  | i, d :: t => (if i ∈ S then [mkHit q d] else []) ++ collectHits q S (i + 1) t

/-- The `/search_jsonl` endpoint (`app.py` lines 89-136) on a well-formed
corpus: empty query short-circuits to `{'hits': [], 'found': 0}`; otherwise
two passes over the corpus with `page_indices = matching[(page-1)*per_page :
(page-1)*per_page + per_page]`. -/
def searchJsonl (corpus : List Doc) (q : Str) (page perPage : Nat) : SearchResp :=
  if q = [] then { hits := [], found := 0 }
  else
    let matchingIndices := matchIndices q 0 corpus
    let startIdx := (page - 1) * perPage
    let endIdx := startIdx + perPage
    let pageIndices := pySlice matchingIndices startIdx endIdx
    { hits := collectHits q pageIndices 0 corpus, found := matchingIndices.length }

def tvaDir : Str := "tva".data

def underscoreChar : Char := '_'

/-- The collection-name derivation shared by `get_pdf` (`app.py` line 145) and
`highlight` (line 173): `'_'.join(filename.split('_')[:-1])`. -/
def collectionName (fn : Str) : Str :=
  pyJoin [underscoreChar] ((splitChar underscoreChar fn).dropLast)

def slashStr : Str := "/".data

/-- The storage key `f"{PDF_BASE_DIR}/{collection_name}/{filename}"` built by
`get_pdf` (`app.py` line 146) and `highlight` (line 174), with
`PDF_BASE_DIR = "tva"`. -/
def s3KeyFor (fn : Str) : Str := tvaDir ++ slashStr ++ collectionName fn ++ slashStr ++ fn

/-- Outcome of the `/pdf/<filename>` endpoint: the served bytes are the pages
fetched from storage, any storage failure collapses to the 404 branch. -/
inductive PdfOutcome (α : Type) where
  | served (pages : List α)
  | notFound
  deriving DecidableEq

/-- The `/pdf/<filename>` endpoint (`app.py` lines 141-159): fetch the object
at `tva/<collection>/<filename>` and stream it; any exception gives 404.
The object store is a parameter mapping keys to the page list of the stored
PDF (`none` models a missing object / failed fetch). -/
def getPdf (storage : Str → Option (List α)) (fn : Str) : PdfOutcome α :=
  match storage (s3KeyFor fn) with
  | some pages => .served pages
  | none => .notFound

/-- Python truthiness of an optional string parameter, as tested by
`if not all([filename, bbox])`: absent (`None`) and empty strings are falsy. -/
def truthy : Option Str → Bool
  | some (_ :: _) => true
  | _ => false

def bracketChars : Str := "[]".data

def commaChar : Char := ','

/-- The bbox components `bbox.strip('[]').split(',')` (`app.py` line 190). -/
def bboxComponents (bbox : Str) : List Str := splitChar commaChar (pyStripChars bracketChars bbox)

/-- Apply the float parser to every component, failing if any component fails
(the list comprehension `[float(x) for x in ...]` raising `ValueError`).
The parser for Python's `float` is a parameter, since only success or failure
of the parse matters to the control flow. -/
def parseAllFloats (pf : Str → Option β) : List Str → Option (List β)
  | [] => some []
  | x :: t =>
    match pf x, parseAllFloats pf t with
    | some v, some r => some (v :: r)
    | _, _ => none

/-- Parse of the `bbox` request parameter (`app.py` lines 189-193). -/
def parseBbox (pf : Str → Option β) (bbox : Str) : Option (List β) :=
  parseAllFloats pf (bboxComponents bbox)

/-- Outcome of the `/highlight` endpoint, labelled by the source's branches:
`missingParams` and `invalidBbox` are the 400 responses, `fetchError` the
404, `processingError` the 500, and `ok pg` the 200 response built from the
extracted page `pg`. -/
inductive HighlightOutcome (α : Type) where
  | missingParams
  | fetchError
  | invalidBbox
  | processingError
  | ok (extractedPage : α)
  deriving DecidableEq

/-- HTTP status of each `HighlightOutcome` branch, as returned by the source. -/
def highlightStatus : HighlightOutcome α → Nat
  | .missingParams => 400
  | .fetchError => 404
  | .invalidBbox => 400
  | .processingError => 500
  | .ok _ => 200

/-- The `/highlight` endpoint (`app.py` lines 161-248).  In source order:
missing/falsy `file` or `bbox` → 400; storage fetch failure or empty data →
404; non-parsing bbox → 400; `page > len(doc)` → 500; then `doc[page - 1]`
with Python indexing — a raise from an out-of-range negative index is caught
by the same handler → 500; otherwise the annotation steps (which have no
failing branch in the model) succeed and the one-page PDF built from the
extracted page is returned.  The unused `text` parameter only adds highlight
annotations and cannot change the outcome branch. -/
def highlight (pf : Str → Option β) (storage : Str → Option (List α))
    (file bbox : Option Str) (page : Int) (text : Str) : HighlightOutcome α :=
  if !(truthy file && truthy bbox) then .missingParams
  else
    match file, bbox with
    | some f, some b =>
      match storage (s3KeyFor f) with
      | none => .fetchError
      | some pages =>
        match parseBbox pf b with
        | none => .invalidBbox
        | some _ =>
          if page > (pages.length : Int) then .processingError
          else
            match pyIndex pages (page - 1) with
            | none => .processingError
            | some pg => let _ := text; .ok pg
    | _, _ => .missingParams

/-- JSON values, for the payload lines of the `/submit` proxy and the cached
JSON-lines files of `/preset_jsonl`. -/
inductive Json where
  | null
  | bool (b : Bool)
  | num (n : Int)
  | str (s : Str)
  | arr (elems : List Json)
  | obj (fields : List (Str × Json))

/-- First-match association lookup on a JSON object's fields (Python dict
access; parsed JSON objects have unique keys, `json.loads` keeps the last
duplicate, so lookups agree on parser output). -/
def jLookup (key : Str) : List (Str × Json) → Option Json
  | [] => none
  | (k, v) :: t => if k = key then some v else jLookup key t

def resultsKey : Str := "results".data

/-- Membership test of one JSON array element against the string `"results"`
(Python `==` between `'results'` and the element). -/
def isResultsStr : Json → Bool
  | .str s => s = resultsKey
  | _ => false

/-- Outcome of the `/submit` proxy after a successful upstream HTTP exchange:
either the 200 response `{"query": ..., "results": ...}` or the caught
exception path `("Search error: ...", 500)`. -/
inductive SubmitOutcome where
  | success (query : Str) (results : Json)
  | searchError

/-- The result-extraction step of `submit` (`app.py` lines 310-313) applied
to the parsed JSON lines of the upstream response:
`if len(search_results) > 1 and 'results' in search_results[1]:
actual_results = search_results[1]['results']`, with `actual_results`
defaulting to `[]`.  Python's `in`/`[...]` on a non-dict second line raises
(`TypeError`), which the surrounding handler turns into the 500 branch:
for an `arr` or `str` second line `'results' in x` is a membership/substring
test, and when it succeeds the subsequent `x['results']` raises. -/
def extractFromSecond : Json → Except Unit Json
  | .null => .error ()
  | .bool _ => .error ()
  | .num _ => .error ()
  | .str s => if isSubstrOf resultsKey s then .error () else .ok (.arr [])
  | .arr elems => if elems.any isResultsStr then .error () else .ok (.arr [])
  | .obj fields =>
    match jLookup resultsKey fields with
    | some r => .ok r
    | none => .ok (.arr [])

/-- See `extractFromSecond` for the per-shape handling of the second line. -/
def extractResults (lines : List Json) : Except Unit Json :=
  match lines.get? 1 with
  | none => .ok (.arr [])
  | some v => extractFromSecond v

/-- The response-shaping tail of the `/submit` proxy (`app.py` lines 304-340),
taking the sanitized query and the parsed JSON lines of the upstream
response body (the `json.loads` of each nonempty line; a parse failure would
already be the 500 branch). -/
def submitProcess (query : Str) (lines : List Json) : SubmitOutcome :=
  match extractResults lines with
  | .ok r => .success query r
  | .error _ => .searchError

/-- Whether a `SubmitOutcome` is the 200 success branch. -/
def submitIsSuccess : SubmitOutcome → Bool
  | .success _ _ => true
  | .searchError => false

def jsonlExt : Str := ".jsonl".data

def slashChar : Char := '/'

/-- Python's `os.path.basename` on a slash-separated key. -/
def basenameOf (k : Str) : Str := (splitChar slashChar k).getLastD []

/-- The cache-sync loop `download_jsonl_cache` (`app.py` lines 342-375):
walk the remote listing in order; skip keys not ending in `.jsonl`; record
every observed basename; download (write) only if no same-named local file
exists.  Returns `(filenames, final local store, number of files written)`.
The local store is the list of local filenames; a write appends the new name. -/
def downloadJsonlCache (remote : List Str) (localStore : List Str) :
    List Str × List Str × Nat :=
  match remote with
  | [] => ([], localStore, 0)
  | k :: ks =>
    if jsonlExt.isSuffixOf k then
      let fn := basenameOf k
      if fn ∈ localStore then
        let (fs, l, w) := downloadJsonlCache ks localStore
        (fn :: fs, l, w)
      else
        let (fs, l, w) := downloadJsonlCache ks (fn :: localStore)
        (fn :: fs, l, w + 1)
    else downloadJsonlCache ks localStore

/-- Outcome of the `/preset_jsonl` endpoint. -/
inductive PresetOutcome where
  | badRequest
  | notFound
  | ok (query : Str) (results : List Json) (found : Nat)

/-- The line-windowing loop of `preset_jsonl` (`app.py` lines 444-450): keep
the parsed lines whose 0-based index `i` satisfies `start ≤ i < stop`, and
count every line (the trailing `if i >= end_idx: continue` is a no-op). -/
def collectWindow (start stop : Nat) : Nat → List Json → List Json
  | _, [] => []
  | i, x :: t => (if start ≤ i ∧ i < stop then [x] else []) ++ collectWindow start stop (i + 1) t

/-- First-match lookup of a cached file's parsed lines by filename. -/
def cacheLookup (file : Str) : List (Str × List Json) → Option (List Json)
  | [] => none
  | (k, v) :: t => if k = file then some v else cacheLookup file t

/-- The `/preset_jsonl` endpoint (`app.py` lines 427-454): missing `file`
parameter → 400; file not cached locally → 404; otherwise serve
`{'query': file, 'results': hits, 'found': total}` where `hits` are the
lines with index in `[(page-1)*per_page, (page-1)*per_page + per_page)` and
`total` counts every line of the file.  The local cache is modelled as an
association list from filename to parsed lines. -/
def presetJsonl (cache : List (Str × List Json)) (file : Option Str)
    (page perPage : Nat) : PresetOutcome :=
  match file with
  | none => .badRequest
  | some f =>
    match cacheLookup f cache with
    | none => .notFound
    | some lines =>
      let startIdx := (page - 1) * perPage
      let endIdx := startIdx + perPage
      .ok f (collectWindow startIdx endIdx 0 lines) lines.length

/-- Response branch of the `/generate_archive` endpoint. -/
inductive ArchiveResp where
  | unauthorized
  | served (content : Str)
  deriving DecidableEq

/-- Full observable outcome of one `/generate_archive` request: the HTTP
response, the object-storage calls performed (listing, downloads, signing),
and the content written to the local archive file (`none` when the file is
left untouched). -/
structure ArchiveOutcome (σ : Type) where
  response : ArchiveResp
  storageCalls : List σ
  written : Option Str

/-- The authorization test of `generate_archive` (`app.py` line 788):
`if not password or password != direct_key` — absent or empty key, an unset
secret, or any mismatch is rejected. -/
def archiveAuthOk (directKey key : Option Str) : Bool :=
  match key, directKey with
  | some (c :: p), some d => (c :: p : Str) = d
  | _, _ => false

def secondsPerDay : Int := 86400

/-- The `/generate_archive` endpoint (`app.py` lines 780-814).  Unauthorized
requests return 401 before any storage interaction.  Otherwise, if a cached
archive file exists and `(now - mtime).days < 6` (`timedelta.days` is the
floor of the age in days), the cached file is served unchanged with no
storage calls and no write; else the page is regenerated and the file
overwritten.  `generate_archive_html` (lines 564-778) is pure templating
over the storage listing and per-file signed URLs; its produced page and the
storage calls it performs are parameters `genHtml`/`genCalls`, since only
*whether* they happen is gated here.  The cached file is `some (age, content)`
with `age` in seconds since its mtime. -/
def generateArchive (directKey key : Option Str) (cached : Option (Int × Str))
    (genHtml : Str) (genCalls : List σ) : ArchiveOutcome σ :=
  if !archiveAuthOk directKey key then
    { response := .unauthorized, storageCalls := [], written := none }
  else
    match cached with
    | some (age, content) =>
      if Int.fdiv age secondsPerDay < 6 then
        { response := .served content, storageCalls := [], written := none }
      else
        { response := .served genHtml, storageCalls := genCalls, written := some genHtml }
    | none =>
      { response := .served genHtml, storageCalls := genCalls, written := some genHtml }

/-- Follows the spec's words, for comparison with the source's snippet
construction: the record's text with only the first literal occurrence of
the raw query wrapped in the marker (unchanged when there is none). -/
def specWrapFirst (pat rep : Str) : Str → Str
  | [] => []
  | c :: t =>
    if pat.isPrefixOf (c :: t) then rep ++ (c :: t).drop pat.length
    else c :: specWrapFirst pat rep t

/-- The consecutive line numbers `i, i+1, ..., i+n-1`, used to bound the
index lists produced by the two-pass search. -/
def seqNats : Nat → Nat → List Nat
  | _, 0 => []
  | i, n + 1 => i :: seqNats (i + 1) n

/-! Named concrete inputs, used by the witness and counterexample theorems. -/

def queryFair : Str := "fair".data

def richmondText : Str := "Richmond county fair results".data

def richmondDoc : Doc := { text := richmondText }

def richmondCorpus : List Doc := [richmondDoc]

def richmondHit : Hit := mkHit queryFair richmondDoc

def richmondMarked : Str := "Richmond county <mark>fair</mark> results".data

def doubleFairText : Str := "fair fair".data

def doubleFairCorpus : List Doc := [{ text := doubleFairText }]

def doubleFairAllMarked : Str := "<mark>fair</mark> <mark>fair</mark>".data

def doubleFairFirstMarked : Str := "<mark>fair</mark> fair".data

def letterACorpus : List Doc := [{ text := "a".data }]

def fnExample : Str := "abc_def_3.pdf".data

def fnPlain : Str := "plainname".data

def preExample : Str := "abc_def".data

def sufExample : Str := "3.pdf".data

def qTest : Str := "richmond".data

def xKey : Str := "x".data

def secretK : Str := "operator-secret".data

def wrongK : Str := "wrong-key".data

def oldHtml : Str := "cached archive page".data

def newHtml : Str := "fresh archive page".data

def bboxExample : Str := "[1,2]".data

def compOne : Str := "1".data

def pagesW : List Nat := [10, 20, 30]

/-- A float parser that accepts every component (only parse success or
failure matters to the endpoint's control flow). -/
def constPf : Str → Option Nat := fun _ => some 0

/-- A float parser that rejects every component, modelling a non-numeric
bounding box. -/
def failPf : Str → Option Nat := fun _ => none

/-- An object store holding a three-page document under every key. -/
def constStorage : Str → Option (List Nat) := fun _ => some pagesW

/-- An object store with no objects at all. -/
def emptyStorage : Str → Option (List Nat) := fun _ => none

def fileA : Str := "preset_a.jsonl".data

def presetLines : List Json := [Json.num 1, Json.num 2, Json.num 3]

def presetCache : List (Str × List Json) := [(fileA, presetLines)]

/-! Theory of `splitChar` / `pyJoin`, leading to the characterization of the
collection-name derivation (claim C6). -/

theorem splitChar_ne_nil (c : Char) (s : Str) : splitChar c s ≠ [] := by
  induction s with
  | nil => simp [splitChar]
  | cons a t ih =>
    simp only [splitChar]
    split
    · simp
    · cases h : splitChar c t with
      | nil => simp
      | cons h' r => simp

theorem splitChar_cons_pos (c : Char) (t : Str) :
    splitChar c (c :: t) = [] :: splitChar c t := by
  simp [splitChar]

theorem splitChar_cons_neg (c a : Char) (t : Str) (h : a ≠ c) :
    splitChar c (a :: t) = (splitChar c t).modifyHead (fun x => a :: x) := by
  simp only [splitChar, if_neg h]
  cases hh : splitChar c t with
  | nil => exact absurd hh (splitChar_ne_nil c t)
  | cons h' r => simp

theorem splitChar_append (c : Char) (xs ys : Str) :
    splitChar c (xs ++ c :: ys) = splitChar c xs ++ splitChar c ys := by
  induction xs with
  | nil => simp [splitChar]
  | cons a t ih =>
    by_cases hac : a = c
    · subst hac
      rw [List.cons_append, splitChar_cons_pos, ih, splitChar_cons_pos]
      rfl
    · rw [List.cons_append, splitChar_cons_neg c a _ hac, ih, splitChar_cons_neg c a _ hac]
      cases hh : splitChar c t with
      | nil => exact absurd hh (splitChar_ne_nil c t)
      | cons h' r => simp

theorem splitChar_of_not_mem (c : Char) (s : Str) (h : c ∉ s) : splitChar c s = [s] := by
  induction s with
  | nil => rfl
  | cons a t ih =>
    have hac : a ≠ c := fun hh => h (hh ▸ List.mem_cons_self a t)
    have ht : c ∉ t := fun hh => h (List.mem_cons_of_mem a hh)
    rw [splitChar_cons_neg c a t hac, ih ht]
    rfl

theorem pyJoin_splitChar (c : Char) (s : Str) : pyJoin [c] (splitChar c s) = s := by
  induction s with
  | nil => rfl
  | cons a t ih =>
    by_cases hac : a = c
    · subst hac
      rw [splitChar_cons_pos]
      cases hh : splitChar a t with
      | nil => exact absurd hh (splitChar_ne_nil a t)
      | cons h' r =>
        rw [hh] at ih
        cases r with
        | nil => simp [pyJoin] at ih ⊢; simp [ih]
        | cons r0 r' => simp [pyJoin] at ih ⊢; simp [ih]
    · rw [splitChar_cons_neg c a t hac]
      cases hh : splitChar c t with
      | nil => exact absurd hh (splitChar_ne_nil c t)
      | cons h' r =>
        rw [hh] at ih
        cases r with
        | nil =>
          simp only [List.modifyHead, pyJoin] at ih ⊢
          simp [ih]
        | cons r0 r' =>
          simp only [List.modifyHead, pyJoin] at ih ⊢
          simp [ih]

/-- C6: for every filename passed to `/pdf/<filename>` or `/highlight`, the
storage key is `tva/<collection>/<filename>` where the collection name is the
filename with its trailing `_<suffix>` segment stripped (the underscore
segments before the last one, rejoined by underscores); a filename without an
underscore yields the empty collection name. -/
theorem c6_collection_name (fn : Str) :
    s3KeyFor fn = tvaDir ++ slashStr ++ collectionName fn ++ slashStr ++ fn ∧
    (underscoreChar ∉ fn → collectionName fn = []) ∧
    (∀ pre suf : Str, fn = pre ++ underscoreChar :: suf → underscoreChar ∉ suf →
      collectionName fn = pre) := by
  refine ⟨rfl, ?_, ?_⟩
  · intro h
    simp [collectionName, splitChar_of_not_mem underscoreChar fn h, pyJoin]
  · intro pre suf hfn hsuf
    subst hfn
    rw [collectionName, splitChar_append, splitChar_of_not_mem underscoreChar suf hsuf,
      List.dropLast_concat, pyJoin_splitChar]

/-- Witness for C6: `abc_def_3.pdf` maps to collection `abc_def`, and a
filename without an underscore maps to the empty collection name. -/
theorem c6_collection_name_witness :
    collectionName fnExample = preExample ∧ collectionName fnPlain = [] :=
  ⟨(c6_collection_name fnExample).2.2 preExample sufExample (by decide) (by decide),
   (c6_collection_name fnPlain).2.1 (by decide)⟩

/-! Theory of `pyReplace` / `pySplitOn`: Python's `s.replace(pat, rep)` equals
rejoining the `pat`-delimited segments with `rep`, i.e. it rewrites every
occurrence (claim C2). -/

theorem pySplitF_ne_nil (pat : Str) (fuel : Nat) (s : Str) : pySplitF pat fuel s ≠ [] := by
  cases fuel with
  | zero => simp [pySplitF]
  | succ n =>
    cases s with
    | nil => simp [pySplitF]
    | cons c t =>
      simp only [pySplitF]
      split
      · simp
      · cases h : pySplitF pat n t with
        | nil => simp
        | cons h' r => simp

theorem pyReplaceF_eq_pyJoin (pat rep : Str) (hpat : pat ≠ []) :
    ∀ (fuel : Nat) (s : Str), s.length ≤ fuel →
      pyReplaceF pat rep fuel s = pyJoin rep (pySplitF pat fuel s) := by
  intro fuel
  induction fuel with
  | zero =>
    intro s hs
    have hnil : s = [] := List.eq_nil_of_length_eq_zero (Nat.le_zero.mp hs)
    subst hnil
    rfl
  | succ n ih =>
    intro s hs
    cases s with
    | nil => rfl
    | cons c t =>
      by_cases hpre : pat.isPrefixOf (c :: t)
      · have hlen : ((c :: t).drop pat.length).length ≤ n := by
          have hp1 : 1 ≤ pat.length := List.length_pos.mpr hpat
          simp only [List.length_drop, List.length_cons]
          simp only [List.length_cons] at hs
          omega
        rw [show pyReplaceF pat rep (n + 1) (c :: t)
              = rep ++ pyReplaceF pat rep n ((c :: t).drop pat.length) from by
            simp [pyReplaceF, hpre],
          show pySplitF pat (n + 1) (c :: t)
              = [] :: pySplitF pat n ((c :: t).drop pat.length) from by
            simp [pySplitF, hpre],
          ih _ hlen]
        cases hsp : pySplitF pat n ((c :: t).drop pat.length) with
        | nil => exact absurd hsp (pySplitF_ne_nil pat n _)
        | cons h' r => simp [pyJoin]
      · rw [show pyReplaceF pat rep (n + 1) (c :: t) = c :: pyReplaceF pat rep n t from by
            simp [pyReplaceF, hpre],
          ih t (by simp only [List.length_cons] at hs; omega),
          show pySplitF pat (n + 1) (c :: t)
              = match pySplitF pat n t with
                | [] => [[c]]
                | h :: r => (c :: h) :: r from by simp [pySplitF, hpre]]
        cases hsp : pySplitF pat n t with
        | nil => exact absurd hsp (pySplitF_ne_nil pat n t)
        | cons h' r =>
          cases r with
          | nil => simp [pyJoin]
          | cons r0 r' => simp [pyJoin]

theorem pyReplace_eq_pyJoin_pySplitOn (pat rep s : Str) (hpat : pat ≠ []) :
    pyReplace pat rep s = pyJoin rep (pySplitOn pat s) :=
  pyReplaceF_eq_pyJoin pat rep hpat s.length s le_rfl

theorem mem_collectHits {q : Str} {S : List Nat} {h : Hit} :
    ∀ {i : Nat} {docs : List Doc}, h ∈ collectHits q S i docs →
      ∃ d, d ∈ docs ∧ h = mkHit q d := by
  intro i docs
  induction docs generalizing i with
  | nil => intro hmem; simp [collectHits] at hmem
  | cons d t ih =>
    intro hmem
    simp only [collectHits] at hmem
    rw [List.mem_append] at hmem
    cases hmem with
    | inl hl =>
      have he : h = mkHit q d := by
        by_cases hc : i ∈ S
        · simp [hc] at hl
          exact hl
        · simp [hc] at hl
      exact ⟨d, List.mem_cons_self d t, he⟩
    | inr hr =>
      obtain ⟨d', hd', he⟩ := ih hr
      exact ⟨d', List.mem_cons_of_mem d hd', he⟩

/-- C2 (amended): every hit returned by the search endpoint carries a snippet
equal to the record's original text with EVERY leftmost literal occurrence of
the raw query wrapped in the `<mark>` marker — equivalently, the
query-delimited segments of the text rejoined with the marked query. -/
theorem c2_snippet_wraps_every_occurrence (corpus : List Doc) (q : Str)
    (page perPage : Nat) (h : Hit)
    (hmem : h ∈ (searchJsonl corpus q page perPage).hits) :
    h.snippet = pyJoin (markWrap q) (pySplitOn q h.document.text) := by
  by_cases hq : q = []
  · subst hq
    simp [searchJsonl] at hmem
  · simp only [searchJsonl, if_neg hq] at hmem
    obtain ⟨d, _, he⟩ := mem_collectHits hmem
    subst he
    simp [mkHit, pyReplace_eq_pyJoin_pySplitOn q (markWrap q) d.text hq]

/-- Witness for C2 (amended): the spec's end-to-end example.  The corpus line
`{"text": "Richmond county fair results"}` queried with `fair` yields the hit
whose snippet both satisfies the rejoin characterization and equals
`Richmond county <mark>fair</mark> results`. -/
theorem c2_snippet_wraps_every_occurrence_witness :
    richmondHit ∈ (searchJsonl richmondCorpus queryFair 1 10).hits ∧
    richmondHit.snippet
      = pyJoin (markWrap queryFair) (pySplitOn queryFair richmondHit.document.text) ∧
    richmondHit.snippet = richmondMarked :=
  ⟨by decide,
   c2_snippet_wraps_every_occurrence richmondCorpus queryFair 1 10 richmondHit (by decide),
   by decide⟩

/-- Counterexample to C2 as stated: on the corpus line `{"text": "fair fair"}`
with query `fair`, the code's snippet wraps BOTH literal occurrences, while
the text with only the first/only occurrence wrapped differs. -/
theorem c2_counterexample :
    (searchJsonl doubleFairCorpus queryFair 1 10).hits.map Hit.snippet
      = [doubleFairAllMarked] ∧
    specWrapFirst queryFair (markWrap queryFair) doubleFairText = doubleFairFirstMarked ∧
    doubleFairAllMarked ≠ doubleFairFirstMarked :=
  ⟨by decide, by decide, by decide⟩

/-! Counting argument for the two-pass search (claim C1): the matching line
numbers form a sublist of the consecutive line numbers, so the second pass
collects exactly one hit per requested page index. -/

theorem mem_seqNats {j i n : Nat} : j ∈ seqNats i n ↔ i ≤ j ∧ j < i + n := by
  induction n generalizing i with
  | zero =>
    simp only [seqNats, List.not_mem_nil, false_iff]
    omega
  | succ n ih =>
    simp only [seqNats, List.mem_cons, ih]
    omega

theorem matchIndices_sublist (q : Str) (docs : List Doc) :
    ∀ i : Nat, (matchIndices q i docs).Sublist (seqNats i docs.length) := by
  induction docs with
  | nil => intro i; simp [matchIndices, seqNats]
  | cons d t ih =>
    intro i
    by_cases hm : docMatches q d
    · simpa [matchIndices, hm, seqNats] using (ih (i + 1)).cons₂ i
    · simpa [matchIndices, hm, seqNats] using (ih (i + 1)).cons i

theorem matchIndices_length (q : Str) (docs : List Doc) :
    ∀ i : Nat, (matchIndices q i docs).length
      = (docs.filter (fun d => docMatches q d)).length := by
  induction docs with
  | nil => intro i; rfl
  | cons d t ih =>
    intro i
    by_cases hm : docMatches q d
    · simp [matchIndices, hm, List.filter_cons, ih (i + 1)]
    · simp [matchIndices, hm, List.filter_cons, ih (i + 1)]

theorem collectHits_shadow (q : Str) (j : Nat) (S : List Nat) (docs : List Doc) :
    ∀ i : Nat, j < i → collectHits q (j :: S) i docs = collectHits q S i docs := by
  induction docs with
  | nil => intro i _; rfl
  | cons d t ih =>
    intro i hj
    have hne : i ≠ j := by omega
    simp only [collectHits]
    rw [ih (i + 1) (by omega)]
    congr 1
    by_cases hi : i ∈ S
    · rw [if_pos (List.mem_cons_of_mem j hi), if_pos hi]
    · rw [if_neg (by simp [List.mem_cons, hne, hi]), if_neg hi]

theorem collectHits_length (q : Str) (docs : List Doc) :
    ∀ (i : Nat) (S : List Nat), S.Sublist (seqNats i docs.length) →
      (collectHits q S i docs).length = S.length := by
  induction docs with
  | nil =>
    intro i S h
    simp only [List.length_nil, seqNats, List.sublist_nil] at h
    subst h
    rfl
  | cons d t ih =>
    intro i S h
    simp only [List.length_cons, seqNats] at h
    cases h with
    | cons _ h' =>
      have hni : i ∉ S := fun hmem => by
        have hb := mem_seqNats.mp (h'.subset hmem)
        omega
      simp only [collectHits, if_neg hni, List.nil_append]
      exact ih (i + 1) S h'
    | cons₂ _ h' =>
      rename_i S'
      simp only [collectHits, if_pos (List.mem_cons_self i S'), List.singleton_append,
        List.length_cons]
      rw [collectHits_shadow q i S' t (i + 1) (by omega)]
      rw [ih (i + 1) S' h']

theorem pySlice_sublist (l : List Nat) (s e : Nat) : (pySlice l s e).Sublist l :=
  (List.take_sublist _ _).trans (List.drop_sublist _ _)

/-- C1 (amended): for a NONEMPTY query and a 1-based page, the endpoint's
`found` equals the number of records whose text contains the query
case-insensitively, and the number of returned hits is
`min(per_page, found - per_page*(page-1))` clamped at 0; the empty query
short-circuits to the empty, zero-count response (before any matching — even
though every text contains the empty string). -/
theorem c1_search_found_and_page_size (corpus : List Doc) (q : Str) (page perPage : Nat)
    (hpage : 1 ≤ page) (hq : q ≠ []) :
    (searchJsonl corpus q page perPage).found
      = (corpus.filter (fun d => docMatches q d)).length ∧
    ((searchJsonl corpus q page perPage).hits.length : Int)
      = max 0 (min (perPage : Int)
          (((searchJsonl corpus q page perPage).found : Int)
            - (perPage : Int) * ((page : Int) - 1))) ∧
    searchJsonl corpus [] page perPage = { hits := [], found := 0 } := by
  have hfound : (searchJsonl corpus q page perPage).found
      = (matchIndices q 0 corpus).length := by
    simp [searchJsonl, hq]
  refine ⟨?_, ?_, by simp [searchJsonl]⟩
  · rw [hfound, matchIndices_length q corpus 0]
  · have hsub : (pySlice (matchIndices q 0 corpus) ((page - 1) * perPage)
        ((page - 1) * perPage + perPage)).Sublist (seqNats 0 corpus.length) :=
      (pySlice_sublist _ _ _).trans (matchIndices_sublist q corpus 0)
    have hlen : (searchJsonl corpus q page perPage).hits.length
        = min perPage ((matchIndices q 0 corpus).length - (page - 1) * perPage) := by
      simp only [searchJsonl, if_neg hq]
      rw [collectHits_length q corpus 0 _ hsub]
      simp [pySlice, List.length_take, List.length_drop, Nat.add_sub_cancel_left]
    rw [hlen, hfound]
    have hk : (((page - 1) * perPage : Nat) : Int) = (perPage : Int) * ((page : Int) - 1) := by
      push_cast [Nat.cast_sub hpage]
      ring
    rw [← hk]
    omega

/-- Witness for C1 (amended) at the spec's end-to-end example corpus. -/
theorem c1_search_found_and_page_size_witness :
    (searchJsonl richmondCorpus queryFair 1 10).found
      = (richmondCorpus.filter (fun d => docMatches queryFair d)).length ∧
    ((searchJsonl richmondCorpus queryFair 1 10).hits.length : Int)
      = max 0 (min (10 : Int)
          (((searchJsonl richmondCorpus queryFair 1 10).found : Int) - 10 * (1 - 1))) ∧
    searchJsonl richmondCorpus [] 1 10 = { hits := [], found := 0 } :=
  c1_search_found_and_page_size richmondCorpus queryFair 1 10 (by decide) (by decide)

/-- Counterexample to C1 as stated for every handled query: on a one-record
corpus, the empty query is handled and returns `found = 0`, but every text
contains the empty string case-insensitively, so the number of matching
records is 1 — the general count formula fails at the empty query. -/
theorem c1_counterexample :
    (searchJsonl letterACorpus [] 1 10).found = 0 ∧
    (letterACorpus.filter (fun d => docMatches [] d)).length = 1 :=
  ⟨by decide, by decide⟩

/-! The `/preset_jsonl` windowing loop equals a drop/take slice (claim C10). -/

theorem collectWindow_of_le (s e : Nat) (l : List Json) :
    ∀ i : Nat, e ≤ i → collectWindow s e i l = [] := by
  induction l with
  | nil => intro i _; rfl
  | cons x t ih =>
    intro i he
    have hc : ¬(s ≤ i ∧ i < e) := by omega
    simp [collectWindow, hc, ih (i + 1) (by omega)]

theorem collectWindow_mid (s e : Nat) (l : List Json) :
    ∀ i : Nat, s ≤ i → i ≤ e → collectWindow s e i l = l.take (e - i) := by
  induction l with
  | nil => intro i _ _; simp [collectWindow]
  | cons x t ih =>
    intro i hs he
    by_cases hlt : i < e
    · have hc : s ≤ i ∧ i < e := ⟨hs, hlt⟩
      simp only [collectWindow, if_pos hc, List.singleton_append]
      rw [ih (i + 1) (by omega) (by omega), show e - i = (e - (i + 1)) + 1 by omega]
      rfl
    · have hc : ¬(s ≤ i ∧ i < e) := by omega
      simp only [collectWindow, if_neg hc, List.nil_append]
      rw [collectWindow_of_le s e t (i + 1) (by omega), show e - i = 0 by omega]
      rfl

theorem collectWindow_below (s e : Nat) (l : List Json) :
    ∀ i : Nat, i ≤ s → collectWindow s e i l = (l.drop (s - i)).take (e - s) := by
  induction l with
  | nil => intro i _; simp [collectWindow]
  | cons x t ih =>
    intro i hi
    by_cases his : i < s
    · have hc : ¬(s ≤ i ∧ i < e) := by omega
      simp only [collectWindow, if_neg hc, List.nil_append]
      rw [ih (i + 1) (by omega), show s - i = (s - (i + 1)) + 1 by omega]
      rfl
    · have his' : i = s := by omega
      subst his'
      by_cases hlt : i < e
      · have hc : i ≤ i ∧ i < e := ⟨le_rfl, hlt⟩
        simp only [collectWindow, if_pos hc, List.singleton_append]
        rw [collectWindow_mid i e t (i + 1) (by omega) (by omega)]
        simp only [Nat.sub_self, List.drop_zero]
        rw [show e - i = (e - (i + 1)) + 1 by omega]
        rfl
      · have hc : ¬(i ≤ i ∧ i < e) := by omega
        simp only [collectWindow, if_neg hc, List.nil_append]
        rw [collectWindow_of_le i e t (i + 1) (by omega)]
        simp [show e - i = 0 by omega]

/-- C10: for an existing cached file of well-formed JSON lines and a 1-based
page, `found` is the total number of lines of the whole file and `results`
are exactly the parsed lines with 0-based index in
`[(page-1)*per_page, (page-1)*per_page + per_page)`, in file order. -/
theorem c10_preset_pagination (cache : List (Str × List Json)) (f : Str)
    (lines : List Json) (page perPage : Nat)
    (hfind : cacheLookup f cache = some lines) (hpage : 1 ≤ page) :
    presetJsonl cache (some f) page perPage
      = .ok f ((lines.drop ((page - 1) * perPage)).take perPage) lines.length := by
  have hp := hpage
  simp only [presetJsonl, hfind]
  rw [collectWindow_below ((page - 1) * perPage) ((page - 1) * perPage + perPage) lines 0
    (Nat.zero_le _)]
  simp [Nat.add_sub_cancel_left]

/-- Witness for C10: page 2 of size 1 over a three-line cached file returns
the second line and `found = 3`. -/
theorem c10_preset_pagination_witness :
    presetJsonl presetCache (some fileA) 2 1
      = .ok fileA ((presetLines.drop ((2 - 1) * 1)).take 1) presetLines.length :=
  c10_preset_pagination presetCache fileA presetLines 2 1 rfl (by decide)

/-! Idempotence of the cache-sync loop (claim C7). -/

theorem downloadJsonlCache_fst (remote : List Str) : ∀ l : List Str,
    (downloadJsonlCache remote l).1
      = (remote.filter (fun k => jsonlExt.isSuffixOf k)).map basenameOf := by
  induction remote with
  | nil => intro l; rfl
  | cons k ks ih =>
    intro l
    by_cases hj : jsonlExt.isSuffixOf k
    · by_cases hmem : basenameOf k ∈ l
      · rcases hdd : downloadJsonlCache ks l with ⟨fs, st, w⟩
        have hfs := ih l
        rw [hdd] at hfs
        simp [downloadJsonlCache, hj, hmem, hdd, List.filter_cons, hfs]
      · rcases hdd : downloadJsonlCache ks (basenameOf k :: l) with ⟨fs, st, w⟩
        have hfs := ih (basenameOf k :: l)
        rw [hdd] at hfs
        simp [downloadJsonlCache, hj, hmem, hdd, List.filter_cons, hfs]
    · simp [downloadJsonlCache, hj, List.filter_cons, ih l]

theorem downloadJsonlCache_store_mem (remote : List Str) :
    ∀ (l : List Str) (x : Str), x ∈ l → x ∈ (downloadJsonlCache remote l).2.1 := by
  induction remote with
  | nil => intro l x hx; exact hx
  | cons k ks ih =>
    intro l x hx
    by_cases hj : jsonlExt.isSuffixOf k
    · by_cases hmem : basenameOf k ∈ l
      · rcases hdd : downloadJsonlCache ks l with ⟨fs, st, w⟩
        have hm := ih l x hx
        rw [hdd] at hm
        simp [downloadJsonlCache, hj, hmem, hdd]
        exact hm
      · rcases hdd : downloadJsonlCache ks (basenameOf k :: l) with ⟨fs, st, w⟩
        have hm := ih (basenameOf k :: l) x (List.mem_cons_of_mem _ hx)
        rw [hdd] at hm
        simp [downloadJsonlCache, hj, hmem, hdd]
        exact hm
    · simp only [downloadJsonlCache, hj]
      simp only [Bool.false_eq_true, if_false]
      exact ih l x hx

theorem downloadJsonlCache_saturates (remote : List Str) :
    ∀ (l : List Str) (k : Str), k ∈ remote → jsonlExt.isSuffixOf k →
      basenameOf k ∈ (downloadJsonlCache remote l).2.1 := by
  induction remote with
  | nil => intro l k hk _; simp at hk
  | cons k0 ks ih =>
    intro l k hk hj
    rcases List.mem_cons.mp hk with heq | htail
    · subst heq
      by_cases hmem : basenameOf k ∈ l
      · rcases hdd : downloadJsonlCache ks l with ⟨fs, st, w⟩
        have hm := downloadJsonlCache_store_mem ks l (basenameOf k) hmem
        rw [hdd] at hm
        simp [downloadJsonlCache, hj, hmem, hdd]
        exact hm
      · rcases hdd : downloadJsonlCache ks (basenameOf k :: l) with ⟨fs, st, w⟩
        have hm := downloadJsonlCache_store_mem ks (basenameOf k :: l) (basenameOf k)
          (List.mem_cons_self _ _)
        rw [hdd] at hm
        simp [downloadJsonlCache, hj, hmem, hdd]
        exact hm
    · by_cases hj0 : jsonlExt.isSuffixOf k0
      · by_cases hmem : basenameOf k0 ∈ l
        · rcases hdd : downloadJsonlCache ks l with ⟨fs, st, w⟩
          have hm := ih l k htail hj
          rw [hdd] at hm
          simp [downloadJsonlCache, hj0, hmem, hdd]
          exact hm
        · rcases hdd : downloadJsonlCache ks (basenameOf k0 :: l) with ⟨fs, st, w⟩
          have hm := ih (basenameOf k0 :: l) k htail hj
          rw [hdd] at hm
          simp [downloadJsonlCache, hj0, hmem, hdd]
          exact hm
      · simp only [downloadJsonlCache, hj0]
        simp only [Bool.false_eq_true, if_false]
        exact ih l k htail hj

theorem downloadJsonlCache_no_writes (remote : List Str) :
    ∀ l : List Str, (∀ k, k ∈ remote → jsonlExt.isSuffixOf k → basenameOf k ∈ l) →
      (downloadJsonlCache remote l).2.1 = l ∧ (downloadJsonlCache remote l).2.2 = 0 := by
  induction remote with
  | nil => intro l _; exact ⟨rfl, rfl⟩
  | cons k ks ih =>
    intro l hsat
    by_cases hj : jsonlExt.isSuffixOf k
    · have hmem : basenameOf k ∈ l := hsat k (List.mem_cons_self _ _) hj
      rcases hdd : downloadJsonlCache ks l with ⟨fs, st, w⟩
      have hih := ih l (fun k' hk' hj' => hsat k' (List.mem_cons_of_mem _ hk') hj')
      rw [hdd] at hih
      simp [downloadJsonlCache, hj, hmem, hdd]
      exact hih
    · simp only [downloadJsonlCache, hj]
      simp only [Bool.false_eq_true, if_false]
      exact ih l (fun k' hk' hj' => hsat k' (List.mem_cons_of_mem _ hk') hj')

/-- C7: running the cache sync twice against an unchanged remote listing
performs zero writes on the second run and leaves the local store unchanged,
and both runs return the same filename list — namely every remotely observed
`.jsonl` basename, not just the newly copied ones. -/
theorem c7_cache_sync_idempotent (remote localStore : List Str) :
    (downloadJsonlCache remote (downloadJsonlCache remote localStore).2.1).1
      = (downloadJsonlCache remote localStore).1 ∧
    (downloadJsonlCache remote (downloadJsonlCache remote localStore).2.1).2.2 = 0 ∧
    (downloadJsonlCache remote (downloadJsonlCache remote localStore).2.1).2.1
      = (downloadJsonlCache remote localStore).2.1 ∧
    (downloadJsonlCache remote localStore).1
      = (remote.filter (fun k => jsonlExt.isSuffixOf k)).map basenameOf := by
  have hsat : ∀ k, k ∈ remote → jsonlExt.isSuffixOf k →
      basenameOf k ∈ (downloadJsonlCache remote localStore).2.1 :=
    fun k hk hj => downloadJsonlCache_saturates remote localStore k hk hj
  have hnw := downloadJsonlCache_no_writes remote (downloadJsonlCache remote localStore).2.1 hsat
  exact ⟨by rw [downloadJsonlCache_fst remote _, downloadJsonlCache_fst remote localStore],
    hnw.2, hnw.1, downloadJsonlCache_fst remote localStore⟩

/-! The `/submit` proxy's handling of structurally deviant upstream payloads
(claim C3). -/

/-- C3 (amended): an upstream payload with fewer than two parsed lines, or a
second-line JSON object lacking the `results` key, does NOT surface as an
error — the endpoint returns the 200 success response with an empty
`results` array. -/
theorem c3_submit_deviation_is_silent_success (query : Str) (lines : List Json)
    (hdev : lines.length ≤ 1 ∨
      ∃ fields, lines.get? 1 = some (Json.obj fields) ∧ jLookup resultsKey fields = none) :
    submitProcess query lines = .success query (Json.arr []) := by
  rcases hdev with hlen | ⟨fields, hget, hlook⟩
  · have hnone : lines[1]? = none := by
      rw [← List.get?_eq_getElem?]
      exact List.get?_eq_none.mpr hlen
    simp [submitProcess, extractResults, hnone]
  · have hget' : lines[1]? = some (Json.obj fields) := by
      rw [← List.get?_eq_getElem?]
      exact hget
    simp [submitProcess, extractResults, extractFromSecond, hget', hlook]

/-- Witness for C3 (amended): a one-line upstream payload yields the success
response with empty results. -/
theorem c3_submit_deviation_is_silent_success_witness :
    submitProcess qTest [Json.obj []] = .success qTest (Json.arr []) :=
  c3_submit_deviation_is_silent_success qTest [Json.obj []] (Or.inl (by decide))

/-- Counterexample to C3 as stated: both structural deviations — a single-line
payload, and a second-line object without the `results` key — produce the 200
success branch (with empty results), not a generic error. -/
theorem c3_counterexample :
    submitProcess qTest [Json.obj [(xKey, Json.null)]]
      = .success qTest (Json.arr []) ∧
    submitIsSuccess (submitProcess qTest [Json.obj [(xKey, Json.null)]]) = true ∧
    submitProcess qTest [Json.obj [], Json.obj [(xKey, Json.null)]]
      = .success qTest (Json.arr []) ∧
    submitIsSuccess (submitProcess qTest [Json.obj [], Json.obj [(xKey, Json.null)]]) = true :=
  ⟨rfl, rfl, rfl, rfl⟩

/-! Authorization and cache-freshness gating of `/generate_archive`
(claims C4 and C8). -/

/-- C4: a `/generate_archive` request whose `key` is absent or differs from
the operator secret gets the 401 unauthorized response, with zero
object-storage calls and no file write. -/
theorem c4_archive_unauthorized (σ : Type) (directKey key : Option Str)
    (cached : Option (Int × Str)) (genHtml : Str) (genCalls : List σ)
    (hkey : key = none ∨ key ≠ directKey) :
    generateArchive directKey key cached genHtml genCalls
      = { response := .unauthorized, storageCalls := [], written := none } := by
  have hauth : archiveAuthOk directKey key = false := by
    rcases key with _ | p
    · cases directKey <;> rfl
    · rcases p with _ | ⟨c, t⟩
      · cases directKey <;> rfl
      · rcases directKey with _ | d
        · rfl
        · have hne : (c :: t : Str) ≠ d := by
            rcases hkey with h | h
            · exact absurd h (by simp)
            · intro hcd
              exact h (by rw [hcd])
          simp [archiveAuthOk, hne]
  simp [generateArchive, hauth]

/-- Witness for C4: a wrong key against a set operator secret is rejected with
no storage calls and no write. -/
theorem c4_archive_unauthorized_witness :
    generateArchive (some secretK) (some wrongK) (some (0, oldHtml)) newHtml ([] : List Unit)
      = { response := .unauthorized, storageCalls := [], written := none } :=
  c4_archive_unauthorized Unit (some secretK) (some wrongK) (some (0, oldHtml)) newHtml []
    (Or.inr (by decide))

/-- C8: for an authorized request, a cached archive file younger than 6 days
(six days being `6 * 86400` seconds, compared through the floored day count)
is served unchanged — no storage calls, no write; with no cached file, or one
at least 6 days old, the page is recomputed and the file overwritten. -/
theorem c8_archive_cache_window (σ : Type) (d : Str) (hd : d ≠ [])
    (cached : Option (Int × Str)) (genHtml : Str) (genCalls : List σ) :
    (∀ (age : Int) (content : Str), cached = some (age, content) →
      age < 6 * secondsPerDay →
      generateArchive (some d) (some d) cached genHtml genCalls
        = { response := .served content, storageCalls := [], written := none }) ∧
    (cached = none →
      generateArchive (some d) (some d) cached genHtml genCalls
        = { response := .served genHtml, storageCalls := genCalls, written := some genHtml }) ∧
    (∀ (age : Int) (content : Str), cached = some (age, content) →
      6 * secondsPerDay ≤ age →
      generateArchive (some d) (some d) cached genHtml genCalls
        = { response := .served genHtml, storageCalls := genCalls,
            written := some genHtml }) := by
  have hauth : archiveAuthOk (some d) (some d) = true := by
    rcases d with _ | ⟨c, t⟩
    · exact absurd rfl hd
    · simp [archiveAuthOk]
  refine ⟨?_, ?_, ?_⟩
  · intro age content hc hfresh
    subst hc
    have hdays : Int.fdiv age secondsPerDay < 6 := by
      simp only [secondsPerDay] at hfresh ⊢
      rw [Int.fdiv_eq_ediv _ (by norm_num)]
      omega
    simp [generateArchive, hauth, hdays]
  · intro hc
    subst hc
    simp [generateArchive, hauth]
  · intro age content hc hstale
    subst hc
    have hdays : ¬Int.fdiv age secondsPerDay < 6 := by
      simp only [secondsPerDay] at hstale ⊢
      rw [Int.fdiv_eq_ediv _ (by norm_num)]
      omega
    simp [generateArchive, hauth, hdays]

/-- Witness for C8: with the correct key, a fresh cached page (age 0) is
served unchanged with no storage calls; with no cached page, the fresh page
is generated and written. -/
theorem c8_archive_cache_window_witness :
    generateArchive (some secretK) (some secretK) (some (0, oldHtml)) newHtml ([] : List Unit)
      = { response := .served oldHtml, storageCalls := [], written := none } ∧
    generateArchive (some secretK) (some secretK) none newHtml ([] : List Unit)
      = { response := .served newHtml, storageCalls := [], written := some newHtml } :=
  ⟨(c8_archive_cache_window Unit secretK (by decide) (some (0, oldHtml)) newHtml []).1
      0 oldHtml rfl (by decide),
   (c8_archive_cache_window Unit secretK (by decide) none newHtml []).2.1 rfl⟩

/-! Validation contract and the one-sided page-range check of `/highlight`
(claims C5 and C9). -/

theorem parseAllFloats_eq_none (pf : Str → Option β) (l : List Str)
    (h : ∃ x ∈ l, pf x = none) : parseAllFloats pf l = none := by
  induction l with
  | nil => simp at h
  | cons x t ih =>
    rcases h with ⟨y, hy, hpf⟩
    rcases List.mem_cons.mp hy with heq | htail
    · subst heq
      simp [parseAllFloats, hpf]
    · have hrec := ih ⟨y, htail, hpf⟩
      simp only [parseAllFloats, hrec]
      cases pf x <;> rfl

/-- C5: the `/highlight` validation contract.  A request with a missing (or
falsy) `file` or `bbox` parameter gets the 400 missing-parameters response;
a fetchable document with a non-numeric bounding box component gets the 400
invalid-bbox response; and a target page beyond the document's page count
always gets the 500 processing-error response — never a success. -/
theorem c5_highlight_validation (α β : Type) (pf : Str → Option β)
    (storage : Str → Option (List α)) :
    (∀ (file bbox : Option Str) (page : Int) (text : Str),
      truthy file = false ∨ truthy bbox = false →
      highlight pf storage file bbox page text = .missingParams ∧
      highlightStatus (highlight pf storage file bbox page text) = 400) ∧
    (∀ (f b : Str) (pages : List α) (page : Int) (text : Str),
      truthy (some f) = true → truthy (some b) = true →
      storage (s3KeyFor f) = some pages →
      (∃ comp ∈ bboxComponents b, pf comp = none) →
      highlight pf storage (some f) (some b) page text = .invalidBbox ∧
      highlightStatus (highlight pf storage (some f) (some b) page text) = 400) ∧
    (∀ (f b : Str) (pages : List α) (floats : List β) (page : Int) (text : Str),
      truthy (some f) = true → truthy (some b) = true →
      storage (s3KeyFor f) = some pages →
      parseBbox pf b = some floats →
      (pages.length : Int) < page →
      highlight pf storage (some f) (some b) page text = .processingError ∧
      highlightStatus (highlight pf storage (some f) (some b) page text) = 500) := by
  refine ⟨?_, ?_, ?_⟩
  · intro file bbox page text hfb
    have heq : highlight pf storage file bbox page text = .missingParams := by
      rcases hfb with h | h <;> simp [highlight, h]
    exact ⟨heq, by rw [heq]; rfl⟩
  · intro f b pages page text hf hb hst hfail
    have hpb : parseBbox pf b = none := parseAllFloats_eq_none pf _ hfail
    have heq : highlight pf storage (some f) (some b) page text = .invalidBbox := by
      simp [highlight, hf, hb, hst, hpb]
    exact ⟨heq, by rw [heq]; rfl⟩
  · intro f b pages floats page text hf hb hst hpb hgt
    have heq : highlight pf storage (some f) (some b) page text = .processingError := by
      simp [highlight, hf, hb, hst, hpb, hgt]
    exact ⟨heq, by rw [heq]; rfl⟩

/-- Witness for C5: the three validation branches at concrete inputs — an
absent file parameter, an all-rejecting float parse on a fetchable document,
and page 5 of a three-page document. -/
theorem c5_highlight_validation_witness :
    (highlight constPf constStorage none (some bboxExample) 1 [] = .missingParams ∧
      highlightStatus (highlight constPf constStorage none (some bboxExample) 1 []) = 400) ∧
    (highlight failPf constStorage (some fnExample) (some bboxExample) 1 []
        = .invalidBbox ∧
      highlightStatus
        (highlight failPf constStorage (some fnExample) (some bboxExample) 1 []) = 400) ∧
    (highlight constPf constStorage (some fnExample) (some bboxExample) 5 []
        = .processingError ∧
      highlightStatus
        (highlight constPf constStorage (some fnExample) (some bboxExample) 5 []) = 500) :=
  ⟨(c5_highlight_validation Nat Nat constPf constStorage).1 none (some bboxExample) 1 []
      (Or.inl rfl),
   (c5_highlight_validation Nat Nat failPf constStorage).2.1 fnExample bboxExample pagesW 1 []
      (by decide) (by decide) rfl ⟨compOne, by decide, rfl⟩,
   (c5_highlight_validation Nat Nat constPf constStorage).2.2 fnExample bboxExample pagesW
      [0, 0] 5 [] (by decide) (by decide) rfl rfl (by decide)⟩

/-- C9: the out-of-range check of `/highlight` is one-sided.  For a fetchable
`N`-page document and any page parameter `p` with `-(N-1) ≤ p ≤ 0`, the
request is not rejected: the pipeline indexes `p - 1` under Python
negative-index semantics and succeeds, extracting 1-based page `N + p`
(0-based index `N + p - 1`; in particular `p = 0` yields the last page). -/
theorem c9_highlight_negative_page (α β : Type) (pf : Str → Option β)
    (storage : Str → Option (List α)) (f b : Str) (pages : List α) (floats : List β)
    (page : Int) (pg : α) (text : Str)
    (hf : truthy (some f) = true) (hb : truthy (some b) = true)
    (hst : storage (s3KeyFor f) = some pages)
    (hbb : parseBbox pf b = some floats)
    (hN : 1 ≤ pages.length)
    (hlo : -((pages.length : Int) - 1) ≤ page) (hhi : page ≤ 0)
    (hpg : pages.get? ((pages.length : Int) + page - 1).toNat = some pg) :
    highlight pf storage (some f) (some b) page text = .ok pg ∧
    highlightStatus (highlight pf storage (some f) (some b) page text) = 200 := by
  have hngt : ¬((pages.length : Int) < page) := by omega
  have hidx : pyIndex pages (page - 1) = some pg := by
    unfold pyIndex
    rw [if_neg (by omega : ¬(0 ≤ page - 1)),
      if_pos (by omega : -(page - 1) ≤ (pages.length : Int)),
      show pages.length - (-(page - 1)).toNat
        = ((pages.length : Int) + page - 1).toNat by omega]
    exact hpg
  have heq : highlight pf storage (some f) (some b) page text = .ok pg := by
    simp [highlight, hf, hb, hst, hbb, hngt, hidx]
  exact ⟨heq, by rw [heq]; rfl⟩

/-- Witness for C9: page parameter `0` against a three-page document is
accepted and extracts the last page. -/
theorem c9_highlight_negative_page_witness :
    highlight constPf constStorage (some fnExample) (some bboxExample) 0 [] = .ok 30 ∧
    highlightStatus
      (highlight constPf constStorage (some fnExample) (some bboxExample) 0 []) = 200 :=
  c9_highlight_negative_page Nat Nat constPf constStorage fnExample bboxExample pagesW
    [0, 0] 0 30 [] (by decide) (by decide) rfl rfl (by decide) (by decide) (by decide)
    (by decide)

end TimesVirginian
